import Mathlib

/-!
# Verification of the v8 debug-event dispatch and break-scheduling subsystem

This development embeds the debugger control surface declared in
`src/include/v8-debug.h` (class `v8::Debug`) together with the behaviour the
design document ascribes to it.  The header under `src/` only declares the
operations (`SetDebugEventListener`, `DebugBreak`, `CancelDebugBreak`,
`Call`, `GetInternalProperties`, the `EventDetails` descriptor and the
`EventCallback` type); their bodies live outside the repository, so the
behavioural definitions below are modelled from the specification, faithful
to its words, while the type-level facts (the shape of `EventDetails`, its
const accessors, the `void` return of `EventCallback`) come directly from
the header.
-/

namespace V8Debug

/-- Debug events which can occur in the engine.
From `src/include/v8-debug.h`, `enum DebugEvent`. -/
inductive DebugEvent where
  | Break
  | Exception
  | AfterCompile
  | CompileError
  | AsyncTaskEvent
deriving DecidableEq, Repr

/-- A script-level value, kept just rich enough for the claims: internal
slots of an object pair a name with a value, and
`GetInternalProperties` must produce a name/value alternating sequence. -/
inductive Value where
  | undefined : Value
  | str : String → Value
  | num : Int → Value
  | obj : List (String × Value) → Value

/-- A listener registration: the identity of the callback function pointer
together with the opaque client data passed at registration time.
Models the `that`/`data` pair of `Debug::SetDebugEventListener`. -/
structure ListenerReg where
  cbId : Nat
  data : Value

/-- The event details descriptor handed to the debug event listener.
Fields mirror the accessors of `Debug::EventDetails` in
`src/include/v8-debug.h`; `epoch` tags the descriptor with the dispatch
call that constructs it, so that validity of its borrowed handles can be
stated (spec: the descriptor never outlives the single dispatch call that
constructs it). -/
structure EventDetails where
  event : DebugEvent
  executionState : Value
  eventData : Value
  eventContext : Nat
  callbackData : Value
  isolate : Nat
  epoch : Nat

/-- One delivered event: which callback was invoked and with which
descriptor. -/
structure Delivery where
  cbId : Nat
  details : EventDetails

/-- Modelled from the spec: the per-EngineInstance state of the debug
subsystem (the implementation behind the static members of `v8::Debug` is
not part of the repository).  It holds the single-slot listener registry,
the pending-break flag of the break scheduler, the lazily created debug
context (with a counter issuing fresh context identities), the dispatch
bookkeeping used to scope event descriptors, the paused program state the
subsystem must not disturb, and a trace of delivered events. -/
structure EngineState where
  healthy : Bool
  listener : Option ListenerReg
  breakPending : Bool
  debugContext : Option Nat
  nextCtxId : Nat
  dispatchEpoch : Nat
  activeDispatch : Option Nat
  scriptState : Nat
  execState : Value
  isolate : Nat
  trace : List Delivery

/-- Modelled from the spec: the debug context manager creates the isolated
context on demand; subsequent calls return the existing one without
re-creating it. -/
def ensureDebugContext (s : EngineState) : EngineState × Nat :=
  match s.debugContext with
  | some c => (s, c)
  | none =>
      ({ s with debugContext := some s.nextCtxId, nextCtxId := s.nextCtxId + 1 },
       s.nextCtxId)

/-- Modelled from the spec: the debug context is destroyed when both no
listener is registered and no break is pending hold simultaneously. -/
def maybeTearDownContext (s : EngineState) : EngineState :=
  if s.listener.isNone && !s.breakPending then { s with debugContext := none }
  else s

/-- Modelled from the spec: `Debug::SetDebugEventListener` (declared at
`src/include/v8-debug.h:71`).  Replaces the current registration; returns
false if the engine cannot enable debugging; a null callback (`none`)
clears the registration and tears the debug context down if no break is
pending; a first registration allocates the debug context. -/
def setDebugEventListener (s : EngineState) (cb : Option Nat) (data : Value) :
    EngineState × Bool :=
  if !s.healthy then (s, false)
  else
    match cb with
    | some c => ((ensureDebugContext { s with listener := some ⟨c, data⟩ }).1, true)
    | none => (maybeTearDownContext { s with listener := none }, true)

/-- Modelled from the spec: `Debug::DebugBreak` (declared at
`src/include/v8-debug.h:76`).  Sets the pending-break flag, creating the
debug context on first need; the break takes effect at the next safe
point, not immediately. -/
def debugBreak (s : EngineState) : EngineState :=
  (ensureDebugContext { s with breakPending := true }).1

/-- Modelled from the spec: `Debug::CancelDebugBreak` (declared at
`src/include/v8-debug.h:80`).  Clears the pending-break flag if the break
has not yet fired, releasing the debug context when no listener remains;
a no-op otherwise. -/
def cancelDebugBreak (s : EngineState) : EngineState :=
  if s.breakPending then maybeTearDownContext { s with breakPending := false }
  else s

/-- The descriptor built for one dispatch: event kind, the paused engine
execution state, the event data, the context active when the event
happened, the client data of the registered listener, the isolate, and the
dispatch epoch scoping the descriptor. -/
def mkDetails (s : EngineState) (reg : ListenerReg) (ev : DebugEvent)
    (evd : Value) (evc : Nat) : EventDetails :=
  { event := ev
    executionState := s.execState
    eventData := evd
    eventContext := evc
    callbackData := reg.data
    isolate := s.isolate
    epoch := s.dispatchEpoch }

/-- Modelled from the spec: entering a dispatch.  The debug context is
entered, the event descriptor is constructed, and the engine records the
in-flight dispatch that scopes the descriptor. -/
def beginDispatch (s : EngineState) (reg : ListenerReg) (ev : DebugEvent)
    (evd : Value) (evc : Nat) : EngineState × EventDetails :=
  ({ (ensureDebugContext s).1 with activeDispatch := some s.dispatchEpoch },
   mkDetails s reg ev evd evc)

/-- Modelled from the spec: leaving a dispatch.  The listener has returned:
the descriptor of this dispatch is invalidated at this instant and the
dispatch epoch advances. -/
def endDispatch (s : EngineState) : EngineState :=
  { s with activeDispatch := none, dispatchEpoch := s.dispatchEpoch + 1 }

/-- Modelled from the spec: the event dispatcher.  If no listener is
registered the event is dropped without buffering or queueing; otherwise
the descriptor is built and delivered to the listener registered at this
moment, and invalidated once the listener returns. -/
def dispatchEvent (s : EngineState) (ev : DebugEvent) (evd : Value)
    (evc : Nat) : EngineState :=
  match s.listener with
  | none => s
  | some reg =>
      let p := beginDispatch s reg ev evd evc
      endDispatch { p.1 with trace := p.1.trace ++ [⟨reg.cbId, p.2⟩] }

/-- Modelled from the spec: an interpreter safe point.  The dispatch loop
consults the break scheduler; when a break is pending it fires exactly
once (the flag is consumed), a `Break` event is dispatched, and the debug
context is released if afterwards no listener is registered and no break
is pending. -/
def safePoint (s : EngineState) (evc : Nat) : EngineState :=
  if s.breakPending then
    maybeTearDownContext
      (dispatchEvent { s with breakPending := false } DebugEvent.Break
        Value.undefined evc)
  else s

/-- Modelled from the spec: raising a level-triggered event (`Exception`,
`AfterCompile`, `CompileError`, `AsyncTaskEvent`) directly from the
engine; these are not scheduled and go through the dispatcher at once. -/
def raiseEvent (s : EngineState) (ev : DebugEvent) (evd : Value)
    (evc : Nat) : EngineState :=
  dispatchEvent s ev evd evc

/-- Failure outcomes of `Debug::Call`: an engine-reentrancy failure when
the engine cannot accept nested evaluation, or an evaluation failure
carrying the error value the diagnostic function produced. -/
inductive CallFailure where
  | reentrancy : CallFailure
  | evalFailure : Value → CallFailure

/-- An audit step of a `Debug::Call` invocation: the debug context entered,
the diagnostic function invoked with the execution-state object and the
argument, the debug context exited. -/
inductive CallStep where
  | enterContext : Nat → CallStep
  | invoke : Value → Value → CallStep
  | exitContext : CallStep

/-- A diagnostic function passed to `Debug::Call`: it receives the paused
engine execution-state object and the explicit argument, and either
returns a value or throws an error value. -/
def DebugFun : Type := Value → Value → Except Value Value

/-- Modelled from the spec: `Debug::Call` (declared at
`src/include/v8-debug.h:105`).  If the engine cannot accept nested
evaluation the call fails with an explicit reentrancy failure; otherwise
the debug context is entered (created on demand), the function is invoked
with the execution-state object and the argument, the context is exited
(and released if no listener is registered and no break is pending), and
the function result or its thrown error is returned.  The paused program
state is never touched. -/
def call (s : EngineState) (f : DebugFun) (arg : Value) :
    EngineState × Except CallFailure Value × List CallStep :=
  if !s.healthy then (s, Except.error CallFailure.reentrancy, [])
  else
    let p := ensureDebugContext s
    let steps := [CallStep.enterContext p.2, CallStep.invoke s.execState arg,
                  CallStep.exitContext]
    match f s.execState arg with
    | Except.ok v => (maybeTearDownContext p.1, Except.ok v, steps)
    | Except.error e =>
        (maybeTearDownContext p.1, Except.error (CallFailure.evalFailure e), steps)

/-- The internal slots of a value: only objects carry internal
name/value slots; every other value type has none. -/
def internalSlots : Value → List (String × Value)
  | Value.obj slots => slots
  | _ => []

/-- Flattens name/value slot pairs into the alternating
`[name, value, name, value, ...]` sequence `GetInternalProperties`
documents. -/
def flattenProps : List (String × Value) → List Value
  | [] => []
  | (n, v) :: rest => Value.str n :: v :: flattenProps rest

/-- Modelled from the spec: `Debug::GetInternalProperties` (declared at
`src/include/v8-debug.h:146`).  Returns the alternating name/value array
of internal slots of the value; empty, not failure, for value types with
no internal slots; the engine state and the inspected value are left
untouched. -/
def getInternalProperties (s : EngineState) (v : Value) :
    EngineState × Option (List Value) :=
  (s, some (flattenProps (internalSlots v)))

/-- The public operations of the debug subsystem, used to quantify over
arbitrary sequences of controller and engine activity. -/
inductive Op where
  | setListener : Option Nat → Value → Op
  | scheduleBreak : Op
  | cancelBreak : Op
  | atSafePoint : Nat → Op
  | raise : DebugEvent → Value → Nat → Op
  | callFun : DebugFun → Value → Op

/-- Applies one public operation to the engine state. -/
def applyOp (o : Op) (s : EngineState) : EngineState :=
  match o with
  | Op.setListener cb d => (setDebugEventListener s cb d).1
  | Op.scheduleBreak => debugBreak s
  | Op.cancelBreak => cancelDebugBreak s
  | Op.atSafePoint evc => safePoint s evc
  | Op.raise ev evd evc => raiseEvent s ev evd evc
  | Op.callFun f a => (call s f a).1

/-- Applies a sequence of public operations, first to last. -/
def applyOps (os : List Op) (s : EngineState) : EngineState :=
  os.foldl (fun t o => applyOp o t) s

/-- Validity of the borrowed handles an event descriptor carries: they are
valid exactly while the dispatch call that constructed the descriptor is
in flight. -/
def handleValid (d : EventDetails) (s : EngineState) : Bool :=
  s.activeDispatch == some d.epoch

/-- The debug context exists exactly when it is needed: when a listener is
registered or a break is pending. -/
def ctxInv (s : EngineState) : Prop :=
  s.debugContext.isSome = (s.listener.isSome || s.breakPending)

/-- Counts the `Break` deliveries in a trace. -/
def breakCount (t : List Delivery) : Nat :=
  (t.filter (fun d => d.details.event == DebugEvent.Break)).length

/-- A concrete healthy engine state with no listener, no pending break and
no debug context, used to instantiate hypotheses of the theorems below. -/
def initialEngine : EngineState :=
  { healthy := true
    listener := none
    breakPending := false
    debugContext := none
    nextCtxId := 0
    dispatchEpoch := 0
    activeDispatch := none
    scriptState := 0
    execState := Value.obj [("frameCount", Value.num 1)]
    isolate := 0
    trace := [] }

/-- A concrete engine state with a registered listener, satisfying the
context invariant, used to instantiate hypotheses of theorems below. -/
def listeningEngine : EngineState :=
  { initialEngine with
    listener := some ⟨2, Value.undefined⟩
    debugContext := some 0
    nextCtxId := 1 }

/-- A concrete unhealthy engine state, used to instantiate failure
hypotheses. -/
def faultyEngine : EngineState :=
  { initialEngine with healthy := false }

/-- A concrete diagnostic function that returns its argument. -/
def idFun : DebugFun := fun _ a => Except.ok a

/-- A concrete diagnostic function that always throws. -/
def throwingFun : DebugFun := fun _ _ => Except.error (Value.num 1)

/-- The debug event callback type.  From `src/include/v8-debug.h:69`,
`typedef void (*EventCallback)(const EventDetails& event_details)`: the
listener receives a const view of the descriptor and returns `void`,
embedded as `Unit`, so it cannot hand a result back to the dispatcher. -/
def EventCallbackT : Type := EventDetails → Unit

/-- The six accessors of `Debug::EventDetails`, each declared `const` in
`src/include/v8-debug.h` lines 34 to 56. -/
inductive Accessor where
  | getEvent
  | getExecutionState
  | getEventData
  | getEventContext
  | getCallbackData
  | getIsolate

/-- The result of one accessor invocation on the descriptor. -/
inductive AccessorOut where
  | ev : DebugEvent → AccessorOut
  | val : Value → AccessorOut
  | ctx : Nat → AccessorOut
  | iso : Nat → AccessorOut

/-- Invoking one const accessor of `Debug::EventDetails`: the result is
projected from the descriptor, and the descriptor as seen after the call
is returned alongside.  A `const` member function cannot replace any
field of the object it is invoked on, which the embedding renders by
construction: each branch returns the descriptor it received. -/
def runAccessor : Accessor → EventDetails → AccessorOut × EventDetails
  | Accessor.getEvent, d => (AccessorOut.ev d.event, d)
  | Accessor.getExecutionState, d => (AccessorOut.val d.executionState, d)
  | Accessor.getEventData, d => (AccessorOut.val d.eventData, d)
  | Accessor.getEventContext, d => (AccessorOut.ctx d.eventContext, d)
  | Accessor.getCallbackData, d => (AccessorOut.val d.callbackData, d)
  | Accessor.getIsolate, d => (AccessorOut.iso d.isolate, d)

/-- The dispatcher invoking the listener: it passes the descriptor and
receives the `void` result together with the descriptor as it stands when
the listener returns (passed by const reference, so unchanged). -/
def invokeListener (cb : EventCallbackT) (d : EventDetails) :
    Unit × EventDetails :=
  (cb d, d)

/-! ## Basic facts about the state helpers -/

@[simp]
theorem ensure_listener (s : EngineState) :
    (ensureDebugContext s).1.listener = s.listener := by
  cases h : s.debugContext <;> simp [ensureDebugContext, h]

@[simp]
theorem ensure_trace (s : EngineState) :
    (ensureDebugContext s).1.trace = s.trace := by
  cases h : s.debugContext <;> simp [ensureDebugContext, h]

@[simp]
theorem ensure_breakPending (s : EngineState) :
    (ensureDebugContext s).1.breakPending = s.breakPending := by
  cases h : s.debugContext <;> simp [ensureDebugContext, h]

@[simp]
theorem ensure_healthy (s : EngineState) :
    (ensureDebugContext s).1.healthy = s.healthy := by
  cases h : s.debugContext <;> simp [ensureDebugContext, h]

@[simp]
theorem ensure_execState (s : EngineState) :
    (ensureDebugContext s).1.execState = s.execState := by
  cases h : s.debugContext <;> simp [ensureDebugContext, h]

@[simp]
theorem ensure_scriptState (s : EngineState) :
    (ensureDebugContext s).1.scriptState = s.scriptState := by
  cases h : s.debugContext <;> simp [ensureDebugContext, h]

@[simp]
theorem ensure_isolate (s : EngineState) :
    (ensureDebugContext s).1.isolate = s.isolate := by
  cases h : s.debugContext <;> simp [ensureDebugContext, h]

@[simp]
theorem ensure_dispatchEpoch (s : EngineState) :
    (ensureDebugContext s).1.dispatchEpoch = s.dispatchEpoch := by
  cases h : s.debugContext <;> simp [ensureDebugContext, h]

@[simp]
theorem ensure_activeDispatch (s : EngineState) :
    (ensureDebugContext s).1.activeDispatch = s.activeDispatch := by
  cases h : s.debugContext <;> simp [ensureDebugContext, h]

@[simp]
theorem tearDown_trace (s : EngineState) :
    (maybeTearDownContext s).trace = s.trace := by
  unfold maybeTearDownContext; split <;> rfl

@[simp]
theorem tearDown_listener (s : EngineState) :
    (maybeTearDownContext s).listener = s.listener := by
  unfold maybeTearDownContext; split <;> rfl

@[simp]
theorem tearDown_breakPending (s : EngineState) :
    (maybeTearDownContext s).breakPending = s.breakPending := by
  unfold maybeTearDownContext; split <;> rfl

@[simp]
theorem tearDown_healthy (s : EngineState) :
    (maybeTearDownContext s).healthy = s.healthy := by
  unfold maybeTearDownContext; split <;> rfl

@[simp]
theorem tearDown_execState (s : EngineState) :
    (maybeTearDownContext s).execState = s.execState := by
  unfold maybeTearDownContext; split <;> rfl

@[simp]
theorem tearDown_scriptState (s : EngineState) :
    (maybeTearDownContext s).scriptState = s.scriptState := by
  unfold maybeTearDownContext; split <;> rfl

@[simp]
theorem tearDown_activeDispatch (s : EngineState) :
    (maybeTearDownContext s).activeDispatch = s.activeDispatch := by
  unfold maybeTearDownContext; split <;> rfl

/-- Delivery shape of a dispatch with a registered listener. -/
theorem dispatch_trace_of_some (s : EngineState) (reg : ListenerReg)
    (ev : DebugEvent) (evd : Value) (evc : Nat) (h : s.listener = some reg) :
    (dispatchEvent s ev evd evc).trace
      = s.trace ++ [⟨reg.cbId, mkDetails s reg ev evd evc⟩] := by
  unfold dispatchEvent
  rw [h]
  simp [beginDispatch, endDispatch]

/-- A dispatch with no registered listener leaves the state untouched. -/
theorem dispatch_of_none (s : EngineState) (ev : DebugEvent) (evd : Value)
    (evc : Nat) (h : s.listener = none) :
    dispatchEvent s ev evd evc = s := by
  unfold dispatchEvent
  rw [h]

/-- After a safe point the pending-break flag is always clear. -/
theorem safePoint_breakPending (s : EngineState) (evc : Nat) :
    (safePoint s evc).breakPending = false := by
  unfold safePoint
  by_cases h : s.breakPending = true
  · simp only [h, if_true]
    rw [tearDown_breakPending]
    unfold dispatchEvent
    cases hl : s.listener with
    | none => simp
    | some reg => simp [beginDispatch, endDispatch]
  · simp only [Bool.not_eq_true] at h
    simp [h]

/-! ## Claims -/

/-- C1: for every sequence of listener registrations, the listener
registered at the moment an event is raised is the one invoked for it:
with no listener registered the event is dropped and the state is left
exactly unchanged (no buffering, no queueing); with a listener registered
the delivery goes to that listener; a freshly registered callback receives
the next event with its own client data, and after clearing the
registration nothing is delivered. -/
theorem event_delivered_to_current_listener (s : EngineState)
    (reg : ListenerReg) (c : Nat) (d evd : Value) (ev : DebugEvent)
    (evc : Nat) (hH : s.healthy = true) :
    (s.listener = none → raiseEvent s ev evd evc = s) ∧
    (s.listener = some reg →
      (raiseEvent s ev evd evc).trace
        = s.trace ++ [⟨reg.cbId, mkDetails s reg ev evd evc⟩]) ∧
    ((raiseEvent (setDebugEventListener s (some c) d).1 ev evd evc).trace
      = (setDebugEventListener s (some c) d).1.trace
        ++ [⟨c, mkDetails (setDebugEventListener s (some c) d).1 ⟨c, d⟩ ev evd evc⟩]) ∧
    (raiseEvent (setDebugEventListener s none d).1 ev evd evc
      = (setDebugEventListener s none d).1) := by
  simp only [raiseEvent]
  refine ⟨fun h => dispatch_of_none s ev evd evc h,
    fun h => dispatch_trace_of_some s reg ev evd evc h, ?_, ?_⟩
  · exact dispatch_trace_of_some _ ⟨c, d⟩ ev evd evc
      (by simp [setDebugEventListener, hH])
  · exact dispatch_of_none _ ev evd evc (by simp [setDebugEventListener, hH])

/-- C1 witness at a concrete state. -/
theorem event_delivered_to_current_listener_witness :
    (initialEngine.listener = none →
      raiseEvent initialEngine DebugEvent.AfterCompile Value.undefined 3
        = initialEngine) ∧
    (initialEngine.listener = some ⟨5, Value.num 9⟩ →
      (raiseEvent initialEngine DebugEvent.AfterCompile Value.undefined 3).trace
        = initialEngine.trace
          ++ [⟨(5 : Nat),
               mkDetails initialEngine ⟨5, Value.num 9⟩ DebugEvent.AfterCompile
                 Value.undefined 3⟩]) ∧
    ((raiseEvent (setDebugEventListener initialEngine (some 7)
          (Value.num 4)).1 DebugEvent.AfterCompile Value.undefined 3).trace
      = (setDebugEventListener initialEngine (some 7) (Value.num 4)).1.trace
        ++ [⟨(7 : Nat),
             mkDetails (setDebugEventListener initialEngine (some 7)
               (Value.num 4)).1 ⟨7, Value.num 4⟩ DebugEvent.AfterCompile
               Value.undefined 3⟩]) ∧
    (raiseEvent (setDebugEventListener initialEngine none (Value.num 4)).1
        DebugEvent.AfterCompile Value.undefined 3
      = (setDebugEventListener initialEngine none (Value.num 4)).1) :=
  event_delivered_to_current_listener initialEngine ⟨5, Value.num 9⟩ 7
    (Value.num 4) Value.undefined DebugEvent.AfterCompile 3 rfl

@[simp]
theorem debugBreak_listener (s : EngineState) :
    (debugBreak s).listener = s.listener := by
  simp [debugBreak]

@[simp]
theorem debugBreak_trace (s : EngineState) :
    (debugBreak s).trace = s.trace := by
  simp [debugBreak]

@[simp]
theorem debugBreak_breakPending (s : EngineState) :
    (debugBreak s).breakPending = true := by
  simp [debugBreak]

@[simp]
theorem cancel_breakPending (s : EngineState) :
    (cancelDebugBreak s).breakPending = false := by
  unfold cancelDebugBreak
  by_cases h : s.breakPending = true
  · simp [h]
  · simp only [Bool.not_eq_true] at h
    simp [h]

@[simp]
theorem cancel_trace (s : EngineState) :
    (cancelDebugBreak s).trace = s.trace := by
  unfold cancelDebugBreak
  split <;> simp

/-- Cancelling is a no-op whenever no break is pending. -/
theorem cancel_of_not_pending (s : EngineState) (h : s.breakPending = false) :
    cancelDebugBreak s = s := by
  unfold cancelDebugBreak
  simp [h]

/-- A safe point with no pending break does nothing. -/
theorem safePoint_of_not_pending (s : EngineState) (evc : Nat)
    (h : s.breakPending = false) : safePoint s evc = s := by
  unfold safePoint
  simp [h]

/-- C2: scheduling a break is idempotent: a second `DebugBreak` before any
safe point leaves the state exactly as after the first, and running to the
next safe point with a listener registered fires exactly one `Break`
event. -/
theorem scheduleBreak_idempotent (s : EngineState) (reg : ListenerReg)
    (evc : Nat) (hL : s.listener = some reg) :
    debugBreak (debugBreak s) = debugBreak s ∧
    breakCount (safePoint (debugBreak (debugBreak s)) evc).trace
      = breakCount s.trace + 1 := by
  have hidem : debugBreak (debugBreak s) = debugBreak s := by
    unfold debugBreak ensureDebugContext
    cases h : s.debugContext <;> simp [h]
  refine ⟨hidem, ?_⟩
  rw [hidem]
  have h1 : (safePoint (debugBreak s) evc).trace
      = s.trace
        ++ [⟨reg.cbId,
             mkDetails { debugBreak s with breakPending := false } reg
               DebugEvent.Break Value.undefined evc⟩] := by
    unfold safePoint
    simp only [debugBreak_breakPending, if_true, tearDown_trace]
    rw [dispatch_trace_of_some _ reg _ _ _ (by simp [hL])]
    simp
  rw [h1]
  simp [breakCount, List.filter_append, mkDetails]

/-- C2 witness at a concrete state. -/
theorem scheduleBreak_idempotent_witness :
    debugBreak (debugBreak listeningEngine) = debugBreak listeningEngine ∧
    breakCount (safePoint (debugBreak (debugBreak listeningEngine)) 3).trace
      = breakCount listeningEngine.trace + 1 :=
  scheduleBreak_idempotent listeningEngine ⟨2, Value.undefined⟩ 3 rfl

/-- C3: a scheduled break cancelled before any safe point yields zero
`Break` events; cancelling with no break pending is a no-op; and once a
break has fired at a safe point, a subsequent cancel is a no-op that
cannot suppress the already-delivered `Break` event. -/
theorem cancelBreak_clears_iff_not_fired (s : EngineState) (evc : Nat)
    (hN : s.breakPending = false) :
    (safePoint (cancelDebugBreak (debugBreak s)) evc).trace = s.trace ∧
    cancelDebugBreak s = s ∧
    cancelDebugBreak (safePoint (debugBreak s) evc)
      = safePoint (debugBreak s) evc ∧
    (cancelDebugBreak (debugBreak s)).trace = s.trace := by
  refine ⟨?_, cancel_of_not_pending s hN,
    cancel_of_not_pending _ (safePoint_breakPending _ _), ?_⟩
  · rw [safePoint_of_not_pending _ _ (cancel_breakPending _)]
    simp
  · simp

/-- C3 witness at a concrete state. -/
theorem cancelBreak_clears_iff_not_fired_witness :
    (safePoint (cancelDebugBreak (debugBreak listeningEngine)) 4).trace
      = listeningEngine.trace ∧
    cancelDebugBreak listeningEngine = listeningEngine ∧
    cancelDebugBreak (safePoint (debugBreak listeningEngine) 4)
      = safePoint (debugBreak listeningEngine) 4 ∧
    (cancelDebugBreak (debugBreak listeningEngine)).trace
      = listeningEngine.trace :=
  cancelBreak_clears_iff_not_fired listeningEngine 4 rfl

@[simp]
theorem ensure_ctx_isSome (s : EngineState) :
    (ensureDebugContext s).1.debugContext.isSome = true := by
  cases h : s.debugContext <;> simp [ensureDebugContext, h]

@[simp]
theorem dispatch_listener (s : EngineState) (ev : DebugEvent) (evd : Value)
    (evc : Nat) : (dispatchEvent s ev evd evc).listener = s.listener := by
  unfold dispatchEvent
  cases h : s.listener with
  | none => exact h
  | some reg => simp [beginDispatch, endDispatch, h]

@[simp]
theorem dispatch_breakPending (s : EngineState) (ev : DebugEvent)
    (evd : Value) (evc : Nat) :
    (dispatchEvent s ev evd evc).breakPending = s.breakPending := by
  unfold dispatchEvent
  cases h : s.listener with
  | none => rfl
  | some reg => simp [beginDispatch, endDispatch]

theorem dispatch_ctx_of_some (s : EngineState) (reg : ListenerReg)
    (ev : DebugEvent) (evd : Value) (evc : Nat) (h : s.listener = some reg) :
    (dispatchEvent s ev evd evc).debugContext.isSome = true := by
  unfold dispatchEvent
  rw [h]
  simp [beginDispatch, endDispatch]

/-- Tearing the context down re-establishes the context invariant as long
as the context is present whenever a listener or a pending break requires
it. -/
theorem ctxInv_tearDown (t : EngineState)
    (h : (t.listener.isSome || t.breakPending) = true →
      t.debugContext.isSome = true) :
    ctxInv (maybeTearDownContext t) := by
  unfold maybeTearDownContext ctxInv
  cases hl : t.listener with
  | none =>
      cases hb : t.breakPending with
      | false => simp [hl, hb]
      | true => simp [hl, hb, h (by simp [hl, hb])]
  | some reg => simp [hl, h (by simp [hl])]

/-- Every public operation preserves the context invariant: the debug
context exists exactly while a listener is registered or a break is
pending. -/
theorem ctxInv_applyOp (s : EngineState) (o : Op) (hInv : ctxInv s) :
    ctxInv (applyOp o s) := by
  cases o with
  | setListener cb d =>
      simp only [applyOp]
      unfold setDebugEventListener
      cases hh : s.healthy with
      | true =>
          simp only [hh, Bool.not_true, Bool.false_eq_true, if_false]
          cases cb with
          | some c =>
              unfold ctxInv
              simp
          | none =>
              apply ctxInv_tearDown
              intro hor
              simp only [Option.isSome_none, Bool.false_or] at hor
              unfold ctxInv at hInv
              simp [hInv, hor]
      | false => simp [hh, hInv]
  | scheduleBreak =>
      simp only [applyOp]
      unfold debugBreak ctxInv
      simp
  | cancelBreak =>
      simp only [applyOp]
      unfold cancelDebugBreak
      cases hb : s.breakPending with
      | true =>
          simp only [hb, if_true]
          apply ctxInv_tearDown
          intro hor
          unfold ctxInv at hInv
          rw [hInv, hb]
          simp
      | false => simp [hb, hInv]
  | atSafePoint evc =>
      simp only [applyOp]
      unfold safePoint
      cases hb : s.breakPending with
      | true =>
          simp only [hb, if_true]
          apply ctxInv_tearDown
          intro hor
          simp only [dispatch_listener, dispatch_breakPending] at hor
          cases hl : s.listener with
          | none => simp [hl] at hor
          | some reg =>
              exact dispatch_ctx_of_some _ reg _ _ _ (by simp [hl])
      | false => simp [hb, hInv]
  | raise ev evd evc =>
      simp only [applyOp]
      unfold raiseEvent
      cases hl : s.listener with
      | none =>
          rw [dispatch_of_none s ev evd evc hl]
          exact hInv
      | some reg =>
          unfold ctxInv
          rw [dispatch_ctx_of_some s reg ev evd evc hl]
          simp [hl]
  | callFun f a =>
      simp only [applyOp]
      unfold call
      cases hh : s.healthy with
      | true =>
          simp only [hh, Bool.not_true, Bool.false_eq_true, if_false]
          cases hr : f s.execState a with
          | ok v =>
              simp only [hr]
              exact ctxInv_tearDown _ (fun _ => ensure_ctx_isSome s)
          | error e =>
              simp only [hr]
              exact ctxInv_tearDown _ (fun _ => ensure_ctx_isSome s)
      | false => simp [hh, hInv]

/-- C4: the debug context exists exactly when needed.  The context
invariant (context present iff a listener is registered or a break is
pending) is preserved by every public operation; the first listener
registration and the first scheduled break each create the context on
demand; a request while the context exists returns it unchanged, without
re-creating it; and clearing the listener with a null callback tears the
context down when no break is pending but leaves it alive when one is. -/
theorem debugContext_lifecycle (s : EngineState) (o : Op) (c cb : Nat)
    (d : Value) (hH : s.healthy = true) (hInv : ctxInv s) :
    ctxInv (applyOp o s) ∧
    (s.debugContext = none →
      (setDebugEventListener s (some cb) d).1.debugContext
        = some s.nextCtxId) ∧
    (s.debugContext = none →
      (debugBreak s).debugContext = some s.nextCtxId) ∧
    (s.debugContext = some c → ensureDebugContext s = (s, c)) ∧
    (s.breakPending = false →
      (setDebugEventListener s none d).1.debugContext = none) ∧
    (s.breakPending = true →
      (setDebugEventListener s none d).1.debugContext = s.debugContext) := by
  refine ⟨ctxInv_applyOp s o hInv, ?_, ?_, ?_, ?_, ?_⟩
  · intro h
    simp [setDebugEventListener, hH, ensureDebugContext, h]
  · intro h
    simp [debugBreak, ensureDebugContext, h]
  · intro h
    simp [ensureDebugContext, h]
  · intro h
    simp [setDebugEventListener, hH, maybeTearDownContext, h]
  · intro h
    simp [setDebugEventListener, hH, maybeTearDownContext, h]

/-- C4 witness at a concrete state. -/
theorem debugContext_lifecycle_witness :
    ctxInv (applyOp Op.scheduleBreak listeningEngine) ∧
    (listeningEngine.debugContext = none →
      (setDebugEventListener listeningEngine (some 7)
        Value.undefined).1.debugContext = some listeningEngine.nextCtxId) ∧
    (listeningEngine.debugContext = none →
      (debugBreak listeningEngine).debugContext
        = some listeningEngine.nextCtxId) ∧
    (listeningEngine.debugContext = some 0 →
      ensureDebugContext listeningEngine = (listeningEngine, 0)) ∧
    (listeningEngine.breakPending = false →
      (setDebugEventListener listeningEngine none
        Value.undefined).1.debugContext = none) ∧
    (listeningEngine.breakPending = true →
      (setDebugEventListener listeningEngine none
        Value.undefined).1.debugContext = listeningEngine.debugContext) :=
  debugContext_lifecycle listeningEngine Op.scheduleBreak 0 7 Value.undefined
    rfl rfl

/-- C5: on a healthy engine, `Call` enters the debug context, invokes the
diagnostic function with the paused engine execution-state object as the
receiver and the argument as the sole explicit argument, exits the debug
context, and returns the function result (mapping a thrown error to an
evaluation failure). -/
theorem call_runs_fun_in_debug_context (s : EngineState) (f : DebugFun)
    (arg : Value) (hH : s.healthy = true) :
    (call s f arg).2.2
      = [CallStep.enterContext (ensureDebugContext s).2,
         CallStep.invoke s.execState arg, CallStep.exitContext] ∧
    (call s f arg).2.1
      = Except.mapError CallFailure.evalFailure (f s.execState arg) := by
  unfold call
  simp only [hH, Bool.not_true, Bool.false_eq_true, if_false]
  cases hr : f s.execState arg <;> simp [hr, Except.mapError]

/-- C5 witness at a concrete state and function. -/
theorem call_runs_fun_in_debug_context_witness :
    (call initialEngine idFun (Value.num 5)).2.2
      = [CallStep.enterContext (ensureDebugContext initialEngine).2,
         CallStep.invoke initialEngine.execState (Value.num 5),
         CallStep.exitContext] ∧
    (call initialEngine idFun (Value.num 5)).2.1
      = Except.mapError CallFailure.evalFailure
          (idFun initialEngine.execState (Value.num 5)) :=
  call_runs_fun_in_debug_context initialEngine idFun (Value.num 5) rfl

/-- C6: `Call` never crashes and never swallows a failure: on an engine
that cannot accept nested evaluation it returns an explicit reentrancy
failure; when the diagnostic function throws, it returns a failure
carrying the thrown error value; and in every case the paused program
state (script state and execution state) is left unaffected. -/
theorem call_failure_surfaced (s : EngineState) (f : DebugFun)
    (arg e : Value) :
    (s.healthy = false →
      (call s f arg).2.1 = Except.error CallFailure.reentrancy) ∧
    (s.healthy = true → f s.execState arg = Except.error e →
      (call s f arg).2.1 = Except.error (CallFailure.evalFailure e)) ∧
    (call s f arg).1.scriptState = s.scriptState ∧
    (call s f arg).1.execState = s.execState := by
  unfold call
  cases hh : s.healthy with
  | false => simp
  | true =>
      simp only [hh, Bool.not_true, Bool.false_eq_true, if_false]
      cases hr : f s.execState arg with
      | ok v => simp [hr, hh]
      | error e2 =>
          refine ⟨fun hc => Bool.noConfusion hc,
            fun _ he => ?_, by simp [hr], by simp [hr]⟩
          have he2 : e2 = e := by
            injection he with he2
          simp [hr, he2]

/-- C6 witness at a concrete state and function. -/
theorem call_failure_surfaced_witness :
    (faultyEngine.healthy = false →
      (call faultyEngine throwingFun Value.undefined).2.1
        = Except.error CallFailure.reentrancy) ∧
    (faultyEngine.healthy = true →
      throwingFun faultyEngine.execState Value.undefined
        = Except.error (Value.num 1) →
      (call faultyEngine throwingFun Value.undefined).2.1
        = Except.error (CallFailure.evalFailure (Value.num 1))) ∧
    (call faultyEngine throwingFun Value.undefined).1.scriptState
      = faultyEngine.scriptState ∧
    (call faultyEngine throwingFun Value.undefined).1.execState
      = faultyEngine.execState :=
  call_failure_surfaced faultyEngine throwingFun Value.undefined (Value.num 1)

/-- C7: on a healthy engine with no listener registered and no break
pending (hence no debug context yet), `Call` still succeeds: the debug
context is created on demand for the call itself (the fresh context id is
entered), the function result is returned, and the context is torn down
again afterwards since nothing needs it. -/
theorem call_succeeds_without_listener_or_break (s : EngineState)
    (f : DebugFun) (arg v : Value) (hH : s.healthy = true)
    (hL : s.listener = none) (hB : s.breakPending = false)
    (hC : s.debugContext = none) (hf : f s.execState arg = Except.ok v) :
    (call s f arg).2.1 = Except.ok v ∧
    (call s f arg).2.2
      = [CallStep.enterContext s.nextCtxId, CallStep.invoke s.execState arg,
         CallStep.exitContext] ∧
    (call s f arg).1.debugContext = none := by
  have hres : call s f arg
      = (maybeTearDownContext
          { s with debugContext := some s.nextCtxId,
                   nextCtxId := s.nextCtxId + 1 },
         Except.ok v,
         [CallStep.enterContext s.nextCtxId, CallStep.invoke s.execState arg,
          CallStep.exitContext]) := by
    unfold call ensureDebugContext
    simp [hH, hC, hf]
  rw [hres]
  refine ⟨rfl, rfl, ?_⟩
  unfold maybeTearDownContext
  simp [hL, hB]

/-- C7 witness at a concrete state and function. -/
theorem call_succeeds_without_listener_or_break_witness :
    (call initialEngine idFun (Value.num 5)).2.1 = Except.ok (Value.num 5) ∧
    (call initialEngine idFun (Value.num 5)).2.2
      = [CallStep.enterContext initialEngine.nextCtxId,
         CallStep.invoke initialEngine.execState (Value.num 5),
         CallStep.exitContext] ∧
    (call initialEngine idFun (Value.num 5)).1.debugContext = none :=
  call_succeeds_without_listener_or_break initialEngine idFun (Value.num 5)
    (Value.num 5) rfl rfl rfl rfl rfl

theorem flattenProps_length (l : List (String × Value)) :
    (flattenProps l).length = 2 * l.length := by
  induction l with
  | nil => rfl
  | cons p rest ih =>
      cases p with
      | mk n v =>
          simp only [flattenProps, List.length_cons, ih]
          omega

/-- Positional characterization of the alternating flatten, valid at
every index: entry `2*i` is the name of slot `i` and entry `2*i+1` its
value, with both sides `none` beyond the last slot. -/
theorem flattenProps_entry (l : List (String × Value)) (i : Nat) :
    (flattenProps l).get? (2 * i) = (l.get? i).map (fun p => Value.str p.1) ∧
    (flattenProps l).get? (2 * i + 1) = (l.get? i).map (fun p => p.2) := by
  induction l generalizing i with
  | nil => simp [flattenProps]
  | cons p rest ih =>
      cases p with
      | mk n v =>
          cases i with
          | zero => simp [flattenProps]
          | succ j =>
              have h2 : 2 * (j + 1) = 2 * j + 1 + 1 := by omega
              simp only [flattenProps, h2, List.get?_cons_succ]
              exact ih j

/-- C8: `GetInternalProperties` never fails and never mutates: the engine
state is returned untouched, the result is always a sequence (never
`none`), its length is even (twice the number of internal slots), a value
with zero internal slots yields the empty sequence, and the sequence
alternates name/value: for every index `i`, position `2*i` holds the name
of slot `i` and position `2*i+1` its value (both sides empty beyond the
last slot). -/
theorem getInternalProperties_shape (s : EngineState) (v : Value) (i : Nat) :
    (getInternalProperties s v).1 = s ∧
    (getInternalProperties s v).2 ≠ none ∧
    ((getInternalProperties s v).2.map List.length)
      = some (2 * (internalSlots v).length) ∧
    (internalSlots v = [] → (getInternalProperties s v).2 = some []) ∧
    ((getInternalProperties s v).2.bind (fun l => l.get? (2 * i)))
      = ((internalSlots v).get? i).map (fun p => Value.str p.1) ∧
    ((getInternalProperties s v).2.bind (fun l => l.get? (2 * i + 1)))
      = ((internalSlots v).get? i).map (fun p => p.2) := by
  have hg := flattenProps_entry (internalSlots v) i
  refine ⟨rfl, by simp [getInternalProperties], ?_, ?_, ?_, ?_⟩
  · simp [getInternalProperties, flattenProps_length]
  · intro hz
    simp [getInternalProperties, hz, flattenProps]
  · simpa [getInternalProperties] using hg.1
  · simpa [getInternalProperties] using hg.2

/-- C8 witness at a concrete value with zero internal slots: the result
is the empty sequence, not a failure, and every probed position is
empty. -/
theorem getInternalProperties_shape_witness :
    (getInternalProperties initialEngine (Value.num 3)).1 = initialEngine ∧
    (getInternalProperties initialEngine (Value.num 3)).2 ≠ none ∧
    ((getInternalProperties initialEngine (Value.num 3)).2.map List.length)
      = some (2 * (internalSlots (Value.num 3)).length) ∧
    (internalSlots (Value.num 3) = [] →
      (getInternalProperties initialEngine (Value.num 3)).2 = some []) ∧
    ((getInternalProperties initialEngine (Value.num 3)).2.bind
        (fun l => l.get? (2 * 0)))
      = ((internalSlots (Value.num 3)).get? 0).map
          (fun p => Value.str p.1) ∧
    ((getInternalProperties initialEngine (Value.num 3)).2.bind
        (fun l => l.get? (2 * 0 + 1)))
      = ((internalSlots (Value.num 3)).get? 0).map (fun p => p.2) :=
  getInternalProperties_shape initialEngine (Value.num 3) 0

/-- A dispatch that starts from a quiescent engine ends with no dispatch
in flight. -/
theorem dispatch_activeDispatch (s : EngineState) (ev : DebugEvent)
    (evd : Value) (evc : Nat) (hq : s.activeDispatch = none) :
    (dispatchEvent s ev evd evc).activeDispatch = none := by
  unfold dispatchEvent
  cases h : s.listener with
  | none => exact hq
  | some reg => simp [beginDispatch, endDispatch]

/-- Every public operation leaves the engine with no dispatch in flight
when it started that way: dispatches are begun and ended within one
operation. -/
theorem applyOp_activeDispatch (s : EngineState) (o : Op)
    (hq : s.activeDispatch = none) : (applyOp o s).activeDispatch = none := by
  cases o with
  | setListener cb d =>
      simp only [applyOp]
      unfold setDebugEventListener
      cases hh : s.healthy with
      | true =>
          cases cb with
          | some c => simp [hq]
          | none => simp [hq]
      | false => simp [hq]
  | scheduleBreak =>
      simp only [applyOp]
      unfold debugBreak
      simp [hq]
  | cancelBreak =>
      simp only [applyOp]
      unfold cancelDebugBreak
      cases hb : s.breakPending <;> simp [hq]
  | atSafePoint evc =>
      simp only [applyOp]
      unfold safePoint
      cases hb : s.breakPending with
      | true =>
          simp only [hb, if_true, tearDown_activeDispatch]
          exact dispatch_activeDispatch _ _ _ _ (by simp [hq])
      | false => simp [hb, hq]
  | raise ev evd evc =>
      simp only [applyOp]
      exact dispatch_activeDispatch _ _ _ _ hq
  | callFun f a =>
      simp only [applyOp]
      unfold call
      cases hh : s.healthy with
      | true =>
          cases hr : f s.execState a <;> simp [hr, hq]
      | false => simp [hq]

/-- No sequence of public operations re-opens a finished dispatch. -/
theorem applyOps_activeDispatch (os : List Op) (s : EngineState)
    (hq : s.activeDispatch = none) :
    (applyOps os s).activeDispatch = none := by
  induction os generalizing s with
  | nil => exact hq
  | cons o rest ih =>
      simp only [applyOps, List.foldl]
      exact ih _ (applyOp_activeDispatch s o hq)

/-- A descriptor handle is invalid in any state with no dispatch in
flight. -/
theorem handleValid_of_none (d : EventDetails) (t : EngineState)
    (hq : t.activeDispatch = none) : handleValid d t = false := by
  simp [handleValid, hq]

/-- C9: the event descriptor never outlives the single dispatch call that
constructs it.  Its borrowed handles are valid while the listener runs
(inside the dispatch that built it) and invalid the instant the dispatch
ends, and they stay invalid across every later sequence of public
operations.  The descriptor borrows rather than owns what it views: its
execution-state handle is the execution state of the engine itself, which the
engine retains unchanged after the dispatch. -/
theorem eventDetails_dispatch_scoped (s : EngineState) (reg : ListenerReg)
    (ev : DebugEvent) (evd : Value) (evc : Nat) (os : List Op)
    (hq : s.activeDispatch = none) (hl : s.listener = some reg) :
    handleValid (beginDispatch s reg ev evd evc).2
      (beginDispatch s reg ev evd evc).1 = true ∧
    handleValid (beginDispatch s reg ev evd evc).2
      (dispatchEvent s ev evd evc) = false ∧
    (dispatchEvent s ev evd evc).activeDispatch = none ∧
    handleValid (beginDispatch s reg ev evd evc).2
      (applyOps os (dispatchEvent s ev evd evc)) = false ∧
    (beginDispatch s reg ev evd evc).2.executionState = s.execState ∧
    (dispatchEvent s ev evd evc).execState = s.execState ∧
    (dispatchEvent s ev evd evc).scriptState = s.scriptState := by
  have hda : (dispatchEvent s ev evd evc).activeDispatch = none :=
    dispatch_activeDispatch s ev evd evc hq
  refine ⟨by simp [beginDispatch, handleValid, mkDetails],
    handleValid_of_none _ _ hda, hda,
    handleValid_of_none _ _ (applyOps_activeDispatch os _ hda),
    by simp [beginDispatch, mkDetails], ?_, ?_⟩
  · unfold dispatchEvent
    rw [hl]
    simp [beginDispatch, endDispatch]
  · unfold dispatchEvent
    rw [hl]
    simp [beginDispatch, endDispatch]

/-- C9 witness at a concrete state, event and continuation. -/
theorem eventDetails_dispatch_scoped_witness :
    handleValid
      (beginDispatch listeningEngine ⟨2, Value.undefined⟩ DebugEvent.Exception
        Value.undefined 1).2
      (beginDispatch listeningEngine ⟨2, Value.undefined⟩ DebugEvent.Exception
        Value.undefined 1).1 = true ∧
    handleValid
      (beginDispatch listeningEngine ⟨2, Value.undefined⟩ DebugEvent.Exception
        Value.undefined 1).2
      (dispatchEvent listeningEngine DebugEvent.Exception Value.undefined 1)
      = false ∧
    (dispatchEvent listeningEngine DebugEvent.Exception Value.undefined
      1).activeDispatch = none ∧
    handleValid
      (beginDispatch listeningEngine ⟨2, Value.undefined⟩ DebugEvent.Exception
        Value.undefined 1).2
      (applyOps [Op.scheduleBreak]
        (dispatchEvent listeningEngine DebugEvent.Exception Value.undefined 1))
      = false ∧
    (beginDispatch listeningEngine ⟨2, Value.undefined⟩ DebugEvent.Exception
      Value.undefined 1).2.executionState = listeningEngine.execState ∧
    (dispatchEvent listeningEngine DebugEvent.Exception Value.undefined
      1).execState = listeningEngine.execState ∧
    (dispatchEvent listeningEngine DebugEvent.Exception Value.undefined
      1).scriptState = listeningEngine.scriptState :=
  eventDetails_dispatch_scoped listeningEngine ⟨2, Value.undefined⟩
    DebugEvent.Exception Value.undefined 1 [Op.scheduleBreak] rfl rfl

/-- C10: the listener observes the event descriptor read-only and returns
nothing to the engine.  Each const accessor of `EventDetails` merely
projects the corresponding field and leaves the descriptor unchanged, and
since `EventCallback` returns `void` (`Unit`), any two listener bodies
hand the dispatcher the identical empty result: no value flows back and
no field of the descriptor can be modified through the listener. -/
theorem listener_reads_descriptor_only (cb cb2 : EventCallbackT)
    (a : Accessor) (d : EventDetails) :
    (invokeListener cb d).2 = d ∧
    (invokeListener cb d).1 = (invokeListener cb2 d).1 ∧
    (runAccessor a d).2 = d ∧
    (runAccessor Accessor.getEvent d).1 = AccessorOut.ev d.event ∧
    (runAccessor Accessor.getExecutionState d).1
      = AccessorOut.val d.executionState ∧
    (runAccessor Accessor.getEventData d).1 = AccessorOut.val d.eventData ∧
    (runAccessor Accessor.getEventContext d).1
      = AccessorOut.ctx d.eventContext ∧
    (runAccessor Accessor.getCallbackData d).1
      = AccessorOut.val d.callbackData ∧
    (runAccessor Accessor.getIsolate d).1 = AccessorOut.iso d.isolate := by
  refine ⟨rfl, rfl, ?_, rfl, rfl, rfl, rfl, rfl, rfl⟩
  cases a <;> rfl

end V8Debug
